import Mathlib

set_option maxHeartbeats 1000000

/-!
Shallow embedding of the flux-share server (src/src/index.ts, the version
with the deletion ledger, the upload pipeline and the history room mode).

State is passed explicitly.  The transport layer (socket.io) is modelled by
its observable effects: membership of a socket in a room is tracked by the
room record (socket.join and room.clients.add always happen together in the
source, and both are cleared together on disconnect, so a single member set
is a faithful model for connected sockets), and outbound broadcasts are
returned as an event list.  The filesystem blob store is modelled by an
oracle: the fresh uuid and the success of fs.writeFile are parameters of an
upload, and the per-id outcome of fs.unlink is a parameter of the sweep.
-/

/-- Metadata of a stored file as broadcast by the server (StoredFileData). -/
structure StoredFileData where
  fileId : String
  fileName : String
  mimeType : String
  size : Nat
deriving DecidableEq, Repr

/-- Canonical stored item (StoredData): a text payload or a file reference. -/
inductive StoredData where
  | str (content : String)
  | file (f : StoredFileData)
deriving DecidableEq, Repr

/-- Client-submitted raw item (TransferData): text, or file bytes plus metadata. -/
inductive TransferData where
  | str (content : String)
  | file (content : List Nat) (fileName : String) (mimeType : String)
deriving DecidableEq, Repr

/-- Room retention mode (RoomMode). -/
inductive RoomMode where
  | singleton
  | live
  | history
deriving DecidableEq, Repr

/-- Value of the data field of a room: undefined, one item, or an array. -/
inductive RoomDataVal where
  | undef
  | single (d : StoredData)
  | arr (l : List StoredData)
deriving DecidableEq, Repr

/-- Options passed to room creation (RoomOptions). -/
structure RoomOptions where
  roomId : String
  capacity : Int
  mode : RoomMode
deriving DecidableEq, Repr

/-- Internal room record (RoomData). -/
structure RoomData where
  id : String
  capacity : Int
  mode : RoomMode
  clients : List String
  data : RoomDataVal
deriving DecidableEq, Repr

/-- Server configuration fixed at construction time (FluxShareOptions). -/
structure Config where
  maxPublicHistory : Nat
  uploadDir : Option String
  maxFileSize : Nat
deriving DecidableEq, Repr

/-- Mutable server state: public history, room registry, deletion ledger. -/
structure ServerState where
  publicHistory : List StoredData
  rooms : List (String × RoomData)
  deletedFiles : List String
deriving DecidableEq, Repr

/-- The state of a freshly constructed server. -/
def initState : ServerState := ⟨[], [], []⟩

/-- Insertion-ordered set add (JS Set.add). -/
def setAdd (s : List String) (x : String) : List String :=
  if x ∈ s then s else s ++ [x]

/-- Set removal (JS Set.delete). -/
def setDel (s : List String) (x : String) : List String :=
  s.filter (fun y => y ≠ x)

/-- Lookup in the insertion-ordered room map (JS Map.get). -/
def lookupRoom : List (String × RoomData) → String → Option RoomData
  | [], _ => none
  | p :: rest, k => if p.1 = k then some p.2 else lookupRoom rest k

/-- Replace the record stored under an existing key. -/
def updateRoom (rs : List (String × RoomData)) (k : String) (r : RoomData) :
    List (String × RoomData) :=
  rs.map (fun p => if p.1 = k then (k, r) else p)

/-- Outbound broadcast events (socket.io emits). -/
inductive Event where
  | pubHist (h : List StoredData)
  | roomDataAll (roomId : String) (d : StoredData)
  | roomDataOthers (roomId : String) (senderId : String) (d : StoredData)
deriving DecidableEq, Repr

/-- Failure cases of processUpload, one per early-return branch. -/
inductive UploadErr where
  | noUploadDir
  | payloadTooLarge
  | storageWriteError
deriving DecidableEq, Repr

/-- processUpload: validate and normalise a raw item.  freshId is the uuid
randomUUID would return and writeOk the outcome of fs.writeFile; the second
component lists the content ids for which a store write was attempted. -/
def processUpload (cfg : Config) (freshId : String) (writeOk : Bool) :
    TransferData → Except UploadErr StoredData × List String
  | .str c => (.ok (.str c), [])
  | .file content fileName mimeType =>
    if cfg.uploadDir.isNone then (.error .noUploadDir, [])
    else if content.length > cfg.maxFileSize then (.error .payloadTooLarge, [])
    else if writeOk then
      (.ok (.file ⟨freshId, fileName, mimeType, content.length⟩), [freshId])
    else (.error .storageWriteError, [freshId])

/-- Result of a public upload: new state, the evicted item when the bound
overflowed, the emitted events, and the attempted store writes. -/
structure PubUploadOut where
  state : ServerState
  evicted : Option StoredData
  events : List Event
  writes : List String
deriving DecidableEq, Repr

/-- Handler of the public:upload event. -/
def handlePublicUpload (cfg : Config) (st : ServerState)
    (freshId : String) (writeOk : Bool) (d : TransferData) : PubUploadOut :=
  match processUpload cfg freshId writeOk d with
  | (.error _, w) => ⟨st, none, [], w⟩
  | (.ok item, w) =>
    let h1 := st.publicHistory ++ [item]
    if h1.length > cfg.maxPublicHistory then
      let removed := h1.head?
      let h2 := h1.tail
      let led :=
        match removed with
        | some (.file f) => setAdd st.deletedFiles f.fileId
        | _ => st.deletedFiles
      ⟨{ st with publicHistory := h2, deletedFiles := led },
        removed, [.pubHist h2], w⟩
    else
      ⟨{ st with publicHistory := h1 }, none, [.pubHist h1], w⟩

/-- Handler of the public:deleteLast event. -/
def handlePublicDeleteLast (st : ServerState) : ServerState × List Event :=
  if st.publicHistory.length > 0 then
    let removed := st.publicHistory.getLast?
    let h2 := st.publicHistory.dropLast
    let led :=
      match removed with
      | some (.file f) => setAdd st.deletedFiles f.fileId
      | _ => st.deletedFiles
    ({ st with publicHistory := h2, deletedFiles := led }, [.pubHist h2])
  else (st, [])

/-- Response shape of room:create. -/
structure CreateResp where
  success : Bool
  roomId : String
  message : String
deriving DecidableEq, Repr

/-- createPrivateRooms: register a new room, rejecting duplicate ids. -/
def createPrivateRooms (st : ServerState) (options : RoomOptions) :
    ServerState × CreateResp :=
  if (lookupRoom st.rooms options.roomId).isSome then
    (st, ⟨false, "", "Room " ++ options.roomId ++ " already exists."⟩)
  else
    let newRoom : RoomData :=
      { id := options.roomId
        capacity := options.capacity
        mode := options.mode
        clients := []
        data := if options.mode = .history then .arr [] else .undef }
    ({ st with rooms := st.rooms ++ [(options.roomId, newRoom)] },
      ⟨true, options.roomId, "Room " ++ options.roomId ++ " created successfully."⟩)

/-- Response shape of room:join. -/
structure JoinResp where
  success : Bool
  message : String
  data : RoomDataVal
deriving DecidableEq, Repr

/-- Handler of the room:join event. -/
def handleRoomJoin (st : ServerState) (socketId roomId : String) :
    ServerState × JoinResp :=
  match lookupRoom st.rooms roomId with
  | none => (st, ⟨false, "Room not found.", .undef⟩)
  | some room =>
    if (room.clients.length : Int) ≥ room.capacity then
      (st, ⟨false, "Room is full.", .undef⟩)
    else
      let room1 := { room with clients := setAdd room.clients socketId }
      let responseData :=
        if room1.mode = .singleton ∨ room1.mode = .history then room1.data
        else .undef
      ({ st with rooms := updateRoom st.rooms roomId room1 },
        ⟨true, "Successfully joined room " ++ roomId ++ ".", responseData⟩)

/-- Response shape of room:history. -/
structure HistResp where
  success : Bool
  message : String
  data : Option (List StoredData)
deriving DecidableEq, Repr

/-- Handler of the room:history event (read-only). -/
def handleRoomHistory (st : ServerState) (socketId roomId : String) : HistResp :=
  match lookupRoom st.rooms roomId with
  | none => ⟨false, "Room not found.", none⟩
  | some room =>
    if socketId ∉ room.clients then
      ⟨false, "You are not a member of this room.", none⟩
    else if room.mode ≠ .history then
      ⟨false, "Room is not in history mode.", none⟩
    else
      let historyData := match room.data with | .arr l => l | _ => []
      ⟨true, "History retrieved successfully.", some historyData⟩

/-- Response shape of room:upload. -/
structure UploadResp where
  success : Bool
  message : String
deriving DecidableEq, Repr

/-- Result of a room upload. -/
structure RoomUploadOut where
  state : ServerState
  resp : UploadResp
  events : List Event
  writes : List String
deriving DecidableEq, Repr

/-- Handler of the room:upload event: existence and membership are checked
before processUpload runs, then the mode policy is applied. -/
def handleRoomUpload (cfg : Config) (st : ServerState)
    (socketId roomId : String) (d : TransferData)
    (freshId : String) (writeOk : Bool) : RoomUploadOut :=
  match lookupRoom st.rooms roomId with
  | none => ⟨st, ⟨false, "You are not in this room."⟩, [], []⟩
  | some room =>
    if socketId ∉ room.clients then
      ⟨st, ⟨false, "You are not in this room."⟩, [], []⟩
    else
      match processUpload cfg freshId writeOk d with
      | (.error _, w) => ⟨st, ⟨false, "Failed to process upload."⟩, [], w⟩
      | (.ok item, w) =>
        match room.mode with
        | .live =>
          ⟨st, ⟨true, "Data sent successfully."⟩,
            [.roomDataOthers roomId socketId item], w⟩
        | .singleton =>
          let led :=
            match room.data with
            | .single (.file f) => setAdd st.deletedFiles f.fileId
            | _ => st.deletedFiles
          let room1 := { room with data := .single item }
          ⟨{ st with
              rooms := updateRoom st.rooms roomId room1
              deletedFiles := led },
            ⟨true, "Data sent successfully."⟩, [.roomDataAll roomId item], w⟩
        | .history =>
          let l := match room.data with | .arr l => l | _ => []
          let room1 := { room with data := .arr (l ++ [item]) }
          ⟨{ st with rooms := updateRoom st.rooms roomId room1 },
            ⟨true, "Data sent successfully."⟩, [.roomDataAll roomId item], w⟩

/-- Content ids the disconnect cleanup ledgers from a dying room: the single
file of a singleton room, or every file of a history array. -/
def ledgerRoomFiles (led : List String) (room : RoomData) : List String :=
  if room.mode = .singleton then
    match room.data with
    | .single (.file f) => setAdd led f.fileId
    | _ => led
  else if room.mode = .history then
    match room.data with
    | .arr l =>
      l.foldl (fun acc item =>
        match item with
        | .file f => setAdd acc f.fileId
        | _ => acc) led
    | _ => led
  else led

/-- Per-room effect of a disconnect: drop the socket; a room emptied by the
removal is destroyed (none). -/
def discRoom (socketId : String) (p : String × RoomData) :
    Option (String × RoomData) :=
  if socketId ∈ p.2.clients then
    let clients1 := setDel p.2.clients socketId
    if clients1 = [] then none
    else some (p.1, { p.2 with clients := clients1 })
  else some p

/-- Handler of the disconnect event: every room the socket belonged to loses
it; emptied rooms ledger their files and are removed from the registry. -/
def handleDisconnect (st : ServerState) (socketId : String) : ServerState :=
  { st with
    rooms := st.rooms.filterMap (discRoom socketId)
    deletedFiles := st.rooms.foldl (fun led p =>
      if socketId ∈ p.2.clients ∧ setDel p.2.clients socketId = [] then
        ledgerRoomFiles led p.2
      else led) st.deletedFiles }

/-- Outcome of one fs.unlink call during a sweep. -/
inductive DelResult where
  | ok
  | enoent
  | err
deriving DecidableEq, Repr

/-- cleanupDeletedFiles: reconcile the ledger against the blob store.  With no
uploadDir the ledger is cleared and nothing is reported; otherwise each id is
unlinked, ok and enoent count as deleted and leave the ledger, any other
error is reported as failed and the id stays. -/
def cleanupDeletedFiles (cfg : Config) (st : ServerState)
    (delFn : String → DelResult) : ServerState × List String × List String :=
  if cfg.uploadDir.isNone then
    ({ st with deletedFiles := [] }, [], [])
  else
    let deleted := st.deletedFiles.filter (fun i => delFn i ≠ .err)
    let failed := st.deletedFiles.filter (fun i => delFn i = .err)
    ({ st with deletedFiles := failed }, deleted, failed)

/-- One inbound operation against the server. -/
inductive Op where
  | pubUpload (d : TransferData) (freshId : String) (writeOk : Bool)
  | pubDeleteLast
  | rCreate (options : RoomOptions)
  | rJoin (socketId roomId : String)
  | rHist (socketId roomId : String)
  | rUpload (socketId roomId : String) (d : TransferData)
      (freshId : String) (writeOk : Bool)
  | disc (socketId : String)
  | sweep (delFn : String → DelResult)

/-- State transition of one operation. -/
def step (cfg : Config) (st : ServerState) : Op → ServerState
  | .pubUpload d f w => (handlePublicUpload cfg st f w d).state
  | .pubDeleteLast => (handlePublicDeleteLast st).1
  | .rCreate options => (createPrivateRooms st options).1
  | .rJoin s r => (handleRoomJoin st s r).1
  | .rHist _ _ => st
  | .rUpload s r d f w => (handleRoomUpload cfg st s r d f w).state
  | .disc s => handleDisconnect st s
  | .sweep delFn => (cleanupDeletedFiles cfg st delFn).1

/-- Reachability from the fresh server state. -/
def reach (cfg : Config) (st : ServerState) : Prop :=
  ∃ ops : List Op, st = ops.foldl (step cfg) initState

/-- Recognise the sweep, which outside callers invoke, among operations. -/
def Op.isSweep : Op → Bool
  | .sweep _ => true
  | _ => false

/-- State effect of one public upload request, given as the raw item, the
uuid the store would allocate, and the outcome of the byte write. -/
def pubStep (cfg : Config) (st : ServerState)
    (o : TransferData × String × Bool) : ServerState :=
  (handlePublicUpload cfg st o.2.1 o.2.2 o.1).state

/-- Items of a sequence of public upload requests that process successfully,
in request order. -/
def pubItems (cfg : Config) (ops : List (TransferData × String × Bool)) :
    List StoredData :=
  ops.filterMap (fun o => ((processUpload cfg o.2.1 o.2.2 o.1).1).toOption)

/-- Last n elements of a list, in order. -/
def takeLast {α : Type} (n : Nat) (l : List α) : List α :=
  (l.reverse.take n).reverse

/-- Context the room:upload handler holds across its await: the source
validates existence and membership, keeps a reference to the room record,
awaits processUpload, and then applies the mode policy to that captured
record without consulting the registry again. -/
structure PendingUpload where
  roomId : String
  socketId : String
  mode : RoomMode
  capturedData : RoomDataVal
deriving DecidableEq, Repr

/-- First half of room:upload, up to the await: the existence and membership
checks and the capture of the room record; no state change. -/
def roomUploadBegin (st : ServerState) (socketId roomId : String) :
    Option PendingUpload :=
  match lookupRoom st.rooms roomId with
  | none => none
  | some room =>
    if socketId ∈ room.clients then
      some ⟨roomId, socketId, room.mode, room.data⟩
    else none

/-- Second half of room:upload, after the await, for a successfully
processed item.  While the room id stays registered the captured record is
the registered one, so the normal mode policy applies.  If the room was
destroyed during the await, the source still runs the mode branches against
the captured, now detached record: the ledger insertions they make reach
server state, but assignments to the detached data field are lost with the
record, so nothing retains the id of the item just stored. -/
def roomUploadResume (st : ServerState) (p : PendingUpload)
    (item : StoredData) : ServerState × UploadResp × List Event :=
  match lookupRoom st.rooms p.roomId with
  | some room =>
    match room.mode with
    | .live =>
      (st, ⟨true, "Data sent successfully."⟩,
        [.roomDataOthers p.roomId p.socketId item])
    | .singleton =>
      let led :=
        match room.data with
        | .single (.file f) => setAdd st.deletedFiles f.fileId
        | _ => st.deletedFiles
      let room1 := { room with data := .single item }
      ({ st with
          rooms := updateRoom st.rooms p.roomId room1
          deletedFiles := led },
        ⟨true, "Data sent successfully."⟩, [.roomDataAll p.roomId item])
    | .history =>
      let l := match room.data with | .arr l => l | _ => []
      let room1 := { room with data := .arr (l ++ [item]) }
      ({ st with rooms := updateRoom st.rooms p.roomId room1 },
        ⟨true, "Data sent successfully."⟩, [.roomDataAll p.roomId item])
  | none =>
    match p.mode with
    | .live =>
      (st, ⟨true, "Data sent successfully."⟩,
        [.roomDataOthers p.roomId p.socketId item])
    | .singleton =>
      let led :=
        match p.capturedData with
        | .single (.file f) => setAdd st.deletedFiles f.fileId
        | _ => st.deletedFiles
      ({ st with deletedFiles := led },
        ⟨true, "Data sent successfully."⟩, [.roomDataAll p.roomId item])
    | .history =>
      (st, ⟨true, "Data sent successfully."⟩, [.roomDataAll p.roomId item])

/-- Text items carry no content id. -/
def StoredData.isStr : StoredData → Bool
  | .str _ => true
  | .file _ => false

/-- Room data holding no file reference. -/
def RoomDataVal.clean : RoomDataVal → Bool
  | .undef => true
  | .single d => d.isStr
  | .arr l => l.all StoredData.isStr

/-- States with an empty ledger and no file reference anywhere: the shape of
every reachable state of a server configured without an upload directory. -/
def storageFree (st : ServerState) : Prop :=
  st.deletedFiles = [] ∧ (∀ d ∈ st.publicHistory, d.isStr = true) ∧
    ∀ p ∈ st.rooms, p.2.data.clean = true

/-- Membership bound every room record is meant to satisfy. -/
def capOk (st : ServerState) : Prop :=
  ∀ p ∈ st.rooms, (p.2.clients.length : Int) ≤ max p.2.capacity 0

/-! Helper lemmas shared by several developments. -/

theorem lookupRoom_append_right (rs : List (String × RoomData)) (k : String)
    (r : RoomData) (h : lookupRoom rs k = none) :
    lookupRoom (rs ++ [(k, r)]) k = some r := by
  induction rs with
  | nil => simp [lookupRoom]
  | cons p t ih =>
    by_cases hp : p.1 = k
    · simp [lookupRoom, hp] at h
    · simp only [List.cons_append, lookupRoom, hp, if_false] at h ⊢
      exact ih h

theorem lookupRoom_update_self (rs : List (String × RoomData)) (k : String)
    (r : RoomData) (h : lookupRoom rs k ≠ none) :
    lookupRoom (updateRoom rs k r) k = some r := by
  induction rs with
  | nil => simp [lookupRoom] at h
  | cons p t ih =>
    by_cases hp : p.1 = k
    · simp [updateRoom, lookupRoom, hp]
    · simp only [lookupRoom, hp, if_false] at h
      simp only [updateRoom, List.map_cons, hp, if_false]
      simpa only [lookupRoom, hp, if_false] using ih h

theorem mem_updateRoom (rs : List (String × RoomData)) (k : String)
    (r : RoomData) (q : String × RoomData) (h : q ∈ updateRoom rs k r) :
    q = (k, r) ∨ q ∈ rs := by
  simp only [updateRoom, List.mem_map] at h
  obtain ⟨p, hp, hq⟩ := h
  by_cases hpk : p.1 = k
  · simp only [hpk, if_true] at hq
    exact Or.inl hq.symm
  · simp only [hpk, if_false] at hq
    exact Or.inr (hq ▸ hp)

theorem takeLast_append {α : Type} (n : Nat) (l rest : List α) :
    takeLast n (takeLast n l ++ rest) = takeLast n (l ++ rest) := by
  unfold takeLast
  rw [List.reverse_append, List.reverse_reverse, List.reverse_append]
  rw [List.take_append_eq_append_take, List.take_append_eq_append_take]
  rw [List.take_take]
  congr 3
  omega

theorem takeLast_of_le {α : Type} (n : Nat) (l : List α) (h : l.length ≤ n) :
    takeLast n l = l := by
  unfold takeLast
  rw [List.take_of_length_le (by simpa using h), List.reverse_reverse]

theorem length_takeLast {α : Type} (n : Nat) (l : List α) :
    (takeLast n l).length = min n l.length := by
  simp [takeLast]

theorem takeLast_succ_tail {α : Type} (n : Nat) (l : List α)
    (h : l.length = n + 1) : takeLast n l = l.tail := by
  unfold takeLast
  have ht : l.reverse.take n = l.reverse.dropLast := by
    rw [List.dropLast_eq_take]
    congr 1
    simp [h]
  rw [ht, ← List.tail_reverse_eq_reverse_dropLast, List.reverse_reverse]

/-- C6: an upload of a file larger than maxFileSize fails with the
PayloadTooLarge branch of processUpload, attempts no ContentStore write, and
leaves state unchanged both on the public channel and on a room upload. -/
theorem C6_payload_too_large (cfg : Config) (st : ServerState)
    (content : List Nat) (fileName mimeType freshId : String)
    (writeOk : Bool) (socketId roomId u : String)
    (hdir : cfg.uploadDir = some u)
    (hbig : content.length > cfg.maxFileSize) :
    processUpload cfg freshId writeOk (.file content fileName mimeType) =
      (.error .payloadTooLarge, []) ∧
    handlePublicUpload cfg st freshId writeOk (.file content fileName mimeType) =
      ⟨st, none, [], []⟩ ∧
    (handleRoomUpload cfg st socketId roomId (.file content fileName mimeType)
        freshId writeOk).state = st ∧
    (handleRoomUpload cfg st socketId roomId (.file content fileName mimeType)
        freshId writeOk).writes = [] := by
  have hp : processUpload cfg freshId writeOk (.file content fileName mimeType) =
      (.error .payloadTooLarge, []) := by
    simp [processUpload, hdir, hbig]
  have hr : (handleRoomUpload cfg st socketId roomId
        (.file content fileName mimeType) freshId writeOk).state = st ∧
      (handleRoomUpload cfg st socketId roomId
        (.file content fileName mimeType) freshId writeOk).writes = [] := by
    unfold handleRoomUpload
    cases hl : lookupRoom st.rooms roomId with
    | none => exact ⟨rfl, rfl⟩
    | some room =>
      by_cases hm : socketId ∈ room.clients
      · simp [hm, hp]
      · simp [hm]
  exact ⟨hp, by simp [handlePublicUpload, hp], hr.1, hr.2⟩

/-- Witness for C6 at a concrete oversized file upload. -/
theorem C6_payload_too_large_witness :
    processUpload ⟨2, some "u", 1⟩ "id" true (.file [0, 0] "a" "b") =
      (.error .payloadTooLarge, []) ∧
    handlePublicUpload ⟨2, some "u", 1⟩ initState "id" true
        (.file [0, 0] "a" "b") = ⟨initState, none, [], []⟩ ∧
    (handleRoomUpload ⟨2, some "u", 1⟩ initState "s" "r"
        (.file [0, 0] "a" "b") "id" true).state = initState ∧
    (handleRoomUpload ⟨2, some "u", 1⟩ initState "s" "r"
        (.file [0, 0] "a" "b") "id" true).writes = [] :=
  C6_payload_too_large ⟨2, some "u", 1⟩ initState [0, 0] "a" "b" "id" true
    "s" "r" "u" rfl (by decide)

/-- C8: the existence and membership checks of room:upload run before any
upload processing, so a rejected upload returns the state unchanged with no
attempted store write, and a rejected join (absent or full room) also leaves
the state unchanged. -/
theorem C8_checks_before_processing (cfg : Config) (st : ServerState)
    (socketId roomId freshId : String) (d : TransferData) (writeOk : Bool)
    (h : ∀ room, lookupRoom st.rooms roomId = some room →
      socketId ∉ room.clients) :
    handleRoomUpload cfg st socketId roomId d freshId writeOk =
      ⟨st, ⟨false, "You are not in this room."⟩, [], []⟩ ∧
    (lookupRoom st.rooms roomId = none →
      handleRoomJoin st socketId roomId =
        (st, ⟨false, "Room not found.", .undef⟩)) ∧
    (∀ room, lookupRoom st.rooms roomId = some room →
      (room.clients.length : Int) ≥ room.capacity →
      handleRoomJoin st socketId roomId =
        (st, ⟨false, "Room is full.", .undef⟩)) := by
  refine ⟨?_, ?_, ?_⟩
  · unfold handleRoomUpload
    cases hl : lookupRoom st.rooms roomId with
    | none => rfl
    | some room => simp [h room hl]
  · intro hl
    unfold handleRoomJoin
    rw [hl]
  · intro room hl hfull
    unfold handleRoomJoin
    rw [hl]
    simp [hfull]

/-- Witness for C8: a socket outside a registered room has its upload
rejected without a store write, and a join of the capacity-zero room fails
as full. -/
theorem C8_checks_before_processing_witness :
    handleRoomUpload ⟨2, some "u", 9⟩
        ⟨[], [("r", ⟨"r", 0, .live, [], .undef⟩)], []⟩ "s" "r"
        (.file [1] "a" "b") "id" true =
      ⟨⟨[], [("r", ⟨"r", 0, .live, [], .undef⟩)], []⟩,
        ⟨false, "You are not in this room."⟩, [], []⟩ ∧
    (lookupRoom (⟨[], [("r", ⟨"r", 0, .live, [], .undef⟩)], []⟩ :
        ServerState).rooms "r" = none →
      handleRoomJoin ⟨[], [("r", ⟨"r", 0, .live, [], .undef⟩)], []⟩ "s" "r" =
        (⟨[], [("r", ⟨"r", 0, .live, [], .undef⟩)], []⟩,
          ⟨false, "Room not found.", .undef⟩)) ∧
    (∀ room, lookupRoom (⟨[], [("r", ⟨"r", 0, .live, [], .undef⟩)], []⟩ :
        ServerState).rooms "r" = some room →
      (room.clients.length : Int) ≥ room.capacity →
      handleRoomJoin ⟨[], [("r", ⟨"r", 0, .live, [], .undef⟩)], []⟩ "s" "r" =
        (⟨[], [("r", ⟨"r", 0, .live, [], .undef⟩)], []⟩,
          ⟨false, "Room is full.", .undef⟩)) := by
  apply C8_checks_before_processing
  intro room hr
  simp [lookupRoom] at hr
  subst hr
  decide

/-- C10: room:create echoes the requested id on success but answers with an
empty roomId on a duplicate id; capacity is not validated at creation, and
every join of a room whose capacity is at most zero fails as full. -/
theorem C10_create_response (st : ServerState) (options : RoomOptions) :
    ((lookupRoom st.rooms options.roomId).isSome →
      createPrivateRooms st options =
        (st, ⟨false, "", "Room " ++ options.roomId ++ " already exists."⟩)) ∧
    (lookupRoom st.rooms options.roomId = none →
      (createPrivateRooms st options).2 =
        ⟨true, options.roomId,
          "Room " ++ options.roomId ++ " created successfully."⟩ ∧
      lookupRoom (createPrivateRooms st options).1.rooms options.roomId =
        some ⟨options.roomId, options.capacity, options.mode, [],
          if options.mode = .history then .arr [] else .undef⟩) ∧
    (∀ st2 s rid room, lookupRoom st2.rooms rid = some room →
      room.capacity ≤ 0 →
      handleRoomJoin st2 s rid = (st2, ⟨false, "Room is full.", .undef⟩)) := by
  refine ⟨?_, ?_, ?_⟩
  · intro h
    simp [createPrivateRooms, h]
  · intro h
    refine ⟨by simp [createPrivateRooms, h], ?_⟩
    simp only [createPrivateRooms, h, Option.isSome_none, Bool.false_eq_true,
      if_false]
    exact lookupRoom_append_right _ _ _ h
  · intro st2 s rid room hl hcap
    have hge : (room.clients.length : Int) ≥ room.capacity :=
      le_trans hcap (Int.ofNat_nonneg _)
    unfold handleRoomJoin
    rw [hl]
    simp [hge]

/-- Witness for C10: duplicate creation answers an empty roomId, fresh
creation echoes the id, and a capacity-zero room rejects every join. -/
theorem C10_create_response_witness :
    createPrivateRooms ⟨[], [("r", ⟨"r", 1, .live, [], .undef⟩)], []⟩
        ⟨"r", 1, .live⟩ =
      (⟨[], [("r", ⟨"r", 1, .live, [], .undef⟩)], []⟩,
        ⟨false, "", "Room r already exists."⟩) ∧
    (createPrivateRooms initState ⟨"q", 0, .live⟩).2 =
      ⟨true, "q", "Room q created successfully."⟩ ∧
    handleRoomJoin ⟨[], [("q", ⟨"q", 0, .live, [], .undef⟩)], []⟩ "s" "q" =
      (⟨[], [("q", ⟨"q", 0, .live, [], .undef⟩)], []⟩,
        ⟨false, "Room is full.", .undef⟩) := by
  refine ⟨?_, ?_, ?_⟩
  · have h := (C10_create_response
      ⟨[], [("r", ⟨"r", 1, .live, [], .undef⟩)], []⟩ ⟨"r", 1, .live⟩).1
      (by decide)
    simpa using h
  · exact ((C10_create_response initState ⟨"q", 0, .live⟩).2.1 (by decide)).1
  · exact (C10_create_response initState ⟨"q", 0, .live⟩).2.2
      ⟨[], [("q", ⟨"q", 0, .live, [], .undef⟩)], []⟩ "s" "q"
      ⟨"q", 0, .live, [], .undef⟩ (by decide) (by decide)

theorem mem_setAdd_self (s : List String) (x : String) : x ∈ setAdd s x := by
  unfold setAdd
  split
  · assumption
  · exact List.mem_append_right _ (List.mem_singleton.mpr rfl)

theorem subset_setAdd (s : List String) (x : String) : s ⊆ setAdd s x := by
  unfold setAdd
  split
  · exact fun a ha => ha
  · exact fun a ha => List.mem_append_left _ ha

theorem processUpload_eta (cfg : Config) (freshId : String) (writeOk : Bool)
    (d : TransferData) (item : StoredData)
    (h : (processUpload cfg freshId writeOk d).1 = .ok item) :
    processUpload cfg freshId writeOk d =
      (.ok item, (processUpload cfg freshId writeOk d).2) := by
  rw [← h]

theorem handleRoomJoin_full (st : ServerState) (socketId roomId : String)
    (room : RoomData) (hl : lookupRoom st.rooms roomId = some room)
    (hfull : (room.clients.length : Int) ≥ room.capacity) :
    handleRoomJoin st socketId roomId =
      (st, ⟨false, "Room is full.", .undef⟩) := by
  unfold handleRoomJoin
  rw [hl]
  simp [hfull]

theorem handleRoomJoin_ok (st : ServerState) (socketId roomId : String)
    (room : RoomData) (hl : lookupRoom st.rooms roomId = some room)
    (hfree : ¬ (room.clients.length : Int) ≥ room.capacity) :
    handleRoomJoin st socketId roomId =
      ({ st with rooms := updateRoom st.rooms roomId { room with clients := setAdd room.clients socketId } },
        ⟨true, "Successfully joined room " ++ roomId ++ ".",
          if room.mode = .singleton ∨ room.mode = .history then room.data
          else .undef⟩) := by
  unfold handleRoomJoin
  rw [hl]
  simp [hfree]

theorem handleRoomUpload_singleton_state (cfg : Config) (st : ServerState)
    (socketId roomId freshId : String) (d : TransferData) (writeOk : Bool)
    (room : RoomData) (item : StoredData)
    (hl : lookupRoom st.rooms roomId = some room)
    (hmode : room.mode = .singleton)
    (hmem : socketId ∈ room.clients)
    (hproc : (processUpload cfg freshId writeOk d).1 = .ok item) :
    handleRoomUpload cfg st socketId roomId d freshId writeOk =
      ⟨{ st with
          rooms := updateRoom st.rooms roomId { room with data := .single item }
          deletedFiles :=
            match room.data with
            | .single (.file f) => setAdd st.deletedFiles f.fileId
            | _ => st.deletedFiles },
        ⟨true, "Data sent successfully."⟩, [.roomDataAll roomId item],
        (processUpload cfg freshId writeOk d).2⟩ := by
  unfold handleRoomUpload
  rw [hl, processUpload_eta cfg freshId writeOk d item hproc]
  simp [hmem, hmode]

theorem handleRoomUpload_history_state (cfg : Config) (st : ServerState)
    (socketId roomId freshId : String) (d : TransferData) (writeOk : Bool)
    (room : RoomData) (item : StoredData) (l : List StoredData)
    (hl : lookupRoom st.rooms roomId = some room)
    (hmode : room.mode = .history)
    (hdata : room.data = .arr l)
    (hmem : socketId ∈ room.clients)
    (hproc : (processUpload cfg freshId writeOk d).1 = .ok item) :
    handleRoomUpload cfg st socketId roomId d freshId writeOk =
      ⟨{ st with
          rooms := updateRoom st.rooms roomId
            { room with data := .arr (l ++ [item]) } },
        ⟨true, "Data sent successfully."⟩, [.roomDataAll roomId item],
        (processUpload cfg freshId writeOk d).2⟩ := by
  unfold handleRoomUpload
  rw [hl, processUpload_eta cfg freshId writeOk d item hproc]
  simp [hmem, hmode, hdata]

/-- C2: a successful upload into a singleton room ledgers the content id of
the file it overwrites before installing the new item, replaces the room
data with the new item, and a subsequent successful join of the room is
answered with exactly the new item. -/
theorem C2_singleton_overwrite (cfg : Config) (st : ServerState)
    (socketId roomId freshId : String) (d : TransferData) (writeOk : Bool)
    (room : RoomData) (newItem : StoredData)
    (hl : lookupRoom st.rooms roomId = some room)
    (hmode : room.mode = .singleton)
    (hmem : socketId ∈ room.clients)
    (hproc : (processUpload cfg freshId writeOk d).1 = .ok newItem) :
    (handleRoomUpload cfg st socketId roomId d freshId writeOk).resp.success
      = true ∧
    (∀ f, room.data = .single (.file f) →
      f.fileId ∈
        (handleRoomUpload cfg st socketId roomId d freshId writeOk).state.deletedFiles) ∧
    lookupRoom
        (handleRoomUpload cfg st socketId roomId d freshId writeOk).state.rooms
        roomId = some { room with data := .single newItem } ∧
    (∀ s2,
      (handleRoomJoin
        (handleRoomUpload cfg st socketId roomId d freshId writeOk).state
        s2 roomId).2.success = true →
      (handleRoomJoin
        (handleRoomUpload cfg st socketId roomId d freshId writeOk).state
        s2 roomId).2.data = .single newItem) := by
  rw [handleRoomUpload_singleton_state cfg st socketId roomId freshId d
    writeOk room newItem hl hmode hmem hproc]
  have hlook : lookupRoom
      (updateRoom st.rooms roomId { room with data := .single newItem })
      roomId = some { room with data := .single newItem } :=
    lookupRoom_update_self st.rooms roomId _ (by rw [hl]; exact fun h => nomatch h)
  refine ⟨rfl, ?_, hlook, ?_⟩
  · intro f hf
    rw [hf]
    exact mem_setAdd_self st.deletedFiles f.fileId
  · intro s2
    by_cases hfull :
        ((({ room with data := RoomDataVal.single newItem } :
          RoomData).clients.length : Int) ≥
          ({ room with data := RoomDataVal.single newItem } :
            RoomData).capacity)
    · rw [handleRoomJoin_full _ s2 roomId _ hlook hfull]
      intro h
      exact absurd h (by simp)
    · rw [handleRoomJoin_ok _ s2 roomId _ hlook hfull]
      intro _
      simp [hmode]

/-- Witness for C2: overwriting a stored file item by a text upload in a
concrete singleton room ledgers the old content id and a later join sees
only the new item. -/
theorem C2_singleton_overwrite_witness :
    (handleRoomUpload ⟨2, some "u", 100⟩
      ⟨[], [("r", ⟨"r", 2, .singleton, ["s1"],
        .single (.file ⟨"old", "f", "m", 1⟩)⟩)], []⟩
      "s1" "r" (.str "new") "id" true).resp.success = true ∧
    "old" ∈ (handleRoomUpload ⟨2, some "u", 100⟩
      ⟨[], [("r", ⟨"r", 2, .singleton, ["s1"],
        .single (.file ⟨"old", "f", "m", 1⟩)⟩)], []⟩
      "s1" "r" (.str "new") "id" true).state.deletedFiles ∧
    (handleRoomJoin (handleRoomUpload ⟨2, some "u", 100⟩
      ⟨[], [("r", ⟨"r", 2, .singleton, ["s1"],
        .single (.file ⟨"old", "f", "m", 1⟩)⟩)], []⟩
      "s1" "r" (.str "new") "id" true).state "s2" "r").2.data =
      .single (.str "new") := by
  have h := C2_singleton_overwrite ⟨2, some "u", 100⟩
    ⟨[], [("r", ⟨"r", 2, .singleton, ["s1"],
      .single (.file ⟨"old", "f", "m", 1⟩)⟩)], []⟩
    "s1" "r" "id" (.str "new") true
    ⟨"r", 2, .singleton, ["s1"], .single (.file ⟨"old", "f", "m", 1⟩)⟩
    (.str "new") (by decide) rfl (by decide) rfl
  exact ⟨h.1, h.2.1 ⟨"old", "f", "m", 1⟩ rfl, h.2.2.2 "s2" (by decide)⟩

/-- C5: two successful uploads into a history room append in order and a
member retrieves the full ordered sequence via room:history; the request
fails for an absent room, for a non-member, and for a non-history room. -/
theorem C5_history_mode (cfg : Config) (st : ServerState)
    (socketId roomId fA fB : String) (dA dB : TransferData) (wA wB : Bool)
    (room : RoomData) (A B : StoredData) (l : List StoredData)
    (hl : lookupRoom st.rooms roomId = some room)
    (hmode : room.mode = .history)
    (hdata : room.data = .arr l)
    (hmem : socketId ∈ room.clients)
    (hA : (processUpload cfg fA wA dA).1 = .ok A)
    (hB : (processUpload cfg fB wB dB).1 = .ok B) :
    handleRoomHistory
      (handleRoomUpload cfg
        (handleRoomUpload cfg st socketId roomId dA fA wA).state
        socketId roomId dB fB wB).state socketId roomId =
      ⟨true, "History retrieved successfully.", some (l ++ [A, B])⟩ ∧
    (∀ st2 s2 r2, lookupRoom st2.rooms r2 = none →
      handleRoomHistory st2 s2 r2 = ⟨false, "Room not found.", none⟩) ∧
    (∀ st2 s2 r2 rm, lookupRoom st2.rooms r2 = some rm → s2 ∉ rm.clients →
      handleRoomHistory st2 s2 r2 =
        ⟨false, "You are not a member of this room.", none⟩) ∧
    (∀ st2 s2 r2 rm, lookupRoom st2.rooms r2 = some rm → s2 ∈ rm.clients →
      rm.mode ≠ .history →
      handleRoomHistory st2 s2 r2 =
        ⟨false, "Room is not in history mode.", none⟩) := by
  refine ⟨?_, ?_, ?_, ?_⟩
  · rw [handleRoomUpload_history_state cfg st socketId roomId fA dA wA
      room A l hl hmode hdata hmem hA]
    have hlook1 : lookupRoom
        (updateRoom st.rooms roomId { room with data := .arr (l ++ [A]) })
        roomId = some { room with data := .arr (l ++ [A]) } :=
      lookupRoom_update_self st.rooms roomId _
        (by rw [hl]; exact fun h => nomatch h)
    rw [handleRoomUpload_history_state cfg _ socketId roomId fB dB wB
      { room with data := .arr (l ++ [A]) } B (l ++ [A]) hlook1 hmode rfl
      hmem hB]
    have hlook2 : lookupRoom
        (updateRoom
          (updateRoom st.rooms roomId { room with data := .arr (l ++ [A]) })
          roomId { room with data := .arr (l ++ [A] ++ [B]) })
        roomId = some { room with data := .arr (l ++ [A] ++ [B]) } := by
      apply lookupRoom_update_self
      rw [hlook1]
      exact fun h => nomatch h
    unfold handleRoomHistory
    rw [hlook2]
    simp [hmem, hmode]
  · intro st2 s2 r2 h
    unfold handleRoomHistory
    rw [h]
  · intro st2 s2 r2 rm h hnm
    unfold handleRoomHistory
    rw [h]
    simp [hnm]
  · intro st2 s2 r2 rm h hm hmo
    unfold handleRoomHistory
    rw [h]
    simp [hm, hmo]

/-- Witness for C5: uploading two text items into a fresh history room and
asking for the history returns both in order; the three failure paths
answer their respective messages on concrete states. -/
theorem C5_history_mode_witness :
    handleRoomHistory
      (handleRoomUpload ⟨2, some "u", 100⟩
        (handleRoomUpload ⟨2, some "u", 100⟩
          ⟨[], [("r", ⟨"r", 2, .history, ["s1"], .arr []⟩)], []⟩
          "s1" "r" (.str "A") "ia" true).state
        "s1" "r" (.str "B") "ib" true).state "s1" "r" =
      ⟨true, "History retrieved successfully.",
        some [.str "A", .str "B"]⟩ ∧
    handleRoomHistory initState "s1" "r" =
      ⟨false, "Room not found.", none⟩ ∧
    handleRoomHistory
      ⟨[], [("r", ⟨"r", 2, .history, ["s1"], .arr []⟩)], []⟩ "s9" "r" =
      ⟨false, "You are not a member of this room.", none⟩ ∧
    handleRoomHistory
      ⟨[], [("r", ⟨"r", 2, .live, ["s1"], .undef⟩)], []⟩ "s1" "r" =
      ⟨false, "Room is not in history mode.", none⟩ := by
  have h := C5_history_mode ⟨2, some "u", 100⟩
    ⟨[], [("r", ⟨"r", 2, .history, ["s1"], .arr []⟩)], []⟩
    "s1" "r" "ia" "ib" (.str "A") (.str "B") true true
    ⟨"r", 2, .history, ["s1"], .arr []⟩ (.str "A") (.str "B") []
    (by decide) rfl rfl (by decide) rfl rfl
  refine ⟨by simpa using h.1, h.2.1 initState "s1" "r" (by decide), ?_, ?_⟩
  · exact h.2.2.1 ⟨[], [("r", ⟨"r", 2, .history, ["s1"], .arr []⟩)], []⟩
      "s9" "r" ⟨"r", 2, .history, ["s1"], .arr []⟩ (by decide) (by decide)
  · exact h.2.2.2 ⟨[], [("r", ⟨"r", 2, .live, ["s1"], .undef⟩)], []⟩
      "s1" "r" ⟨"r", 2, .live, ["s1"], .undef⟩ (by decide) (by decide)
      (by decide)

theorem takeLast_length_le {α : Type} (n : Nat) (l : List α) :
    (takeLast n l).length ≤ n := by
  rw [length_takeLast]
  omega

theorem pubItems_cons (cfg : Config) (o : TransferData × String × Bool)
    (rest : List (TransferData × String × Bool)) :
    pubItems cfg (o :: rest) = pubItems cfg [o] ++ pubItems cfg rest := by
  unfold pubItems
  rw [List.filterMap_cons, List.filterMap_cons]
  cases h : ((processUpload cfg o.2.1 o.2.2 o.1).1).toOption <;> simp [h]

theorem pubStep_publicHistory (cfg : Config) (st : ServerState)
    (o : TransferData × String × Bool)
    (hle : st.publicHistory.length ≤ cfg.maxPublicHistory) :
    (pubStep cfg st o).publicHistory =
      takeLast cfg.maxPublicHistory (st.publicHistory ++ pubItems cfg [o]) := by
  unfold pubStep handlePublicUpload
  rcases hp : processUpload cfg o.2.1 o.2.2 o.1 with ⟨res, w⟩
  cases res with
  | error e =>
    have hit : pubItems cfg [o] = [] := by
      simp [pubItems, List.filterMap_cons, hp, Except.toOption]
    simp only [hit, List.append_nil]
    exact (takeLast_of_le _ _ hle).symm
  | ok item =>
    have hit : pubItems cfg [o] = [item] := by
      simp [pubItems, List.filterMap_cons, hp, Except.toOption]
    rw [hit]
    by_cases hover :
        (st.publicHistory ++ [item]).length > cfg.maxPublicHistory
    · have hlen : (st.publicHistory ++ [item]).length =
          cfg.maxPublicHistory + 1 := by
        simp only [List.length_append, List.length_singleton] at hover ⊢
        omega
      simp only [hover, if_true]
      exact (takeLast_succ_tail _ _ hlen).symm
    · simp only [hover, if_false]
      exact (takeLast_of_le _ _ (by omega)).symm

theorem pubFold_publicHistory (cfg : Config)
    (ops : List (TransferData × String × Bool)) (st : ServerState)
    (hle : st.publicHistory.length ≤ cfg.maxPublicHistory) :
    (ops.foldl (pubStep cfg) st).publicHistory =
      takeLast cfg.maxPublicHistory (st.publicHistory ++ pubItems cfg ops) := by
  induction ops generalizing st with
  | nil =>
    simp only [List.foldl_nil, pubItems, List.filterMap_nil, List.append_nil]
    exact (takeLast_of_le _ _ hle).symm
  | cons o rest ih =>
    rw [List.foldl_cons]
    have hstep := pubStep_publicHistory cfg st o hle
    have hle1 : (pubStep cfg st o).publicHistory.length ≤
        cfg.maxPublicHistory := by
      rw [hstep]
      exact takeLast_length_le _ _
    rw [ih _ hle1, hstep, takeLast_append, List.append_assoc, ← pubItems_cons]

/-- C1: starting from the empty history, any sequence of public uploads
leaves the public history equal to the last maxPublicHistory successfully
processed items in insertion order, so its length never exceeds the bound;
and whenever an upload evicts an item, the evicted item is the head, that
is the oldest element, of the history at the moment of the append. -/
theorem C1_public_fifo (cfg : Config)
    (ops : List (TransferData × String × Bool)) :
    (ops.foldl (pubStep cfg) initState).publicHistory =
      takeLast cfg.maxPublicHistory (pubItems cfg ops) ∧
    (ops.foldl (pubStep cfg) initState).publicHistory.length ≤
      cfg.maxPublicHistory ∧
    (∀ st f w d x, (handlePublicUpload cfg st f w d).evicted = some x →
      ∃ item, (processUpload cfg f w d).1 = .ok item ∧
        (st.publicHistory ++ [item]).head? = some x ∧
        (st.publicHistory ≠ [] → st.publicHistory.head? = some x)) := by
  have h1 := pubFold_publicHistory cfg ops initState (by simp [initState])
  simp only [initState] at h1
  refine ⟨by simpa using h1, ?_, ?_⟩
  · rw [show (ops.foldl (pubStep cfg) initState).publicHistory =
      takeLast cfg.maxPublicHistory (pubItems cfg ops) by simpa using h1]
    exact takeLast_length_le _ _
  · intro st f w d x hev
    unfold handlePublicUpload at hev
    rcases hp : processUpload cfg f w d with ⟨res, w2⟩
    rw [hp] at hev
    cases res with
    | error e => exact nomatch hev
    | ok item =>
      refine ⟨item, rfl, ?_⟩
      by_cases hover :
          (st.publicHistory ++ [item]).length > cfg.maxPublicHistory
      · simp only [hover, if_true] at hev
        refine ⟨hev, ?_⟩
        intro hne
        rw [← hev]
        cases hh : st.publicHistory with
        | nil => exact absurd hh hne
        | cons a t => simp [hh]
      · simp only [hover, if_false] at hev
        exact nomatch hev

/-- Witness for C1: three text uploads against a bound of two keep exactly
the last two items, in order. -/
theorem C1_public_fifo_witness :
    (([((.str "a" : TransferData), "i1", true), (.str "b", "i2", true),
        (.str "c", "i3", true)].foldl (pubStep ⟨2, some "u", 9⟩)
        initState).publicHistory = [.str "b", .str "c"]) ∧
    (([((.str "a" : TransferData), "i1", true), (.str "b", "i2", true),
        (.str "c", "i3", true)].foldl (pubStep ⟨2, some "u", 9⟩)
        initState).publicHistory.length ≤ 2) := by
  have h := C1_public_fifo ⟨2, some "u", 9⟩
    [(.str "a", "i1", true), (.str "b", "i2", true), (.str "c", "i3", true)]
  exact ⟨by rw [h.1]; decide, h.2.1⟩

/-- C7 counterexample: a public upload whose processing fails (here no
upload directory is configured, so a file upload is rejected) is dropped
silently: the handler emits no event at all and leaves the state unchanged,
so no failure signal of any kind reaches the calling connection. -/
theorem C7_public_silent_counterexample :
    (processUpload ⟨2, none, 9⟩ "id" true (.file [1] "a" "b")).1 =
      .error .noUploadDir ∧
    handlePublicUpload ⟨2, none, 9⟩ initState "id" true (.file [1] "a" "b") =
      ⟨initState, none, [], []⟩ := by
  constructor
  · rfl
  · rfl

/-- C7 amended: every failing room-scoped operation answers the caller with
a structured failure response (success false), and a failing room upload
that passed the membership checks reports the processing failure; a failing
public upload, by contrast, produces no response, no event and no state
change. -/
theorem C7_room_errors_surfaced (cfg : Config) (st : ServerState)
    (socketId roomId freshId : String) (d : TransferData) (writeOk : Bool)
    (options : RoomOptions) :
    ((lookupRoom st.rooms options.roomId).isSome →
      (createPrivateRooms st options).2.success = false) ∧
    (lookupRoom st.rooms roomId = none →
      (handleRoomJoin st socketId roomId).2.success = false ∧
      (handleRoomHistory st socketId roomId).success = false ∧
      (handleRoomUpload cfg st socketId roomId d freshId
        writeOk).resp.success = false) ∧
    (∀ room e, lookupRoom st.rooms roomId = some room →
      socketId ∈ room.clients →
      (processUpload cfg freshId writeOk d).1 = .error e →
      (handleRoomUpload cfg st socketId roomId d freshId writeOk).resp =
        ⟨false, "Failed to process upload."⟩) ∧
    (∀ e, (processUpload cfg freshId writeOk d).1 = .error e →
      handlePublicUpload cfg st freshId writeOk d =
        ⟨st, none, [], (processUpload cfg freshId writeOk d).2⟩) := by
  refine ⟨?_, ?_, ?_, ?_⟩
  · intro h
    simp [createPrivateRooms, h]
  · intro h
    refine ⟨?_, ?_, ?_⟩
    · unfold handleRoomJoin
      rw [h]
    · unfold handleRoomHistory
      rw [h]
    · unfold handleRoomUpload
      rw [h]
  · intro room e hl hm herr
    have hpair : processUpload cfg freshId writeOk d =
        (.error e, (processUpload cfg freshId writeOk d).2) := by
      rw [← herr]
    unfold handleRoomUpload
    rw [hl, hpair]
    simp [hm]
  · intro e herr
    have hpair : processUpload cfg freshId writeOk d =
        (.error e, (processUpload cfg freshId writeOk d).2) := by
      rw [← herr]
    unfold handlePublicUpload
    rw [hpair]

/-- Witness for the amended C7 on concrete states: duplicate create, join
of an absent room, history of an absent room, upload by a member that fails
processing, and the silent public drop. -/
theorem C7_room_errors_surfaced_witness :
    (createPrivateRooms ⟨[], [("r", ⟨"r", 1, .live, [], .undef⟩)], []⟩
      ⟨"r", 1, .live⟩).2.success = false ∧
    (handleRoomJoin initState "s" "r").2.success = false ∧
    (handleRoomHistory initState "s" "r").success = false ∧
    (handleRoomUpload ⟨2, none, 9⟩
      ⟨[], [("r", ⟨"r", 1, .live, ["s"], .undef⟩)], []⟩ "s" "r"
      (.file [1] "a" "b") "id" true).resp =
      ⟨false, "Failed to process upload."⟩ ∧
    handlePublicUpload ⟨2, none, 9⟩ initState "id" true (.file [1] "a" "b") =
      ⟨initState, none, [], []⟩ := by
  refine ⟨?_, ?_, ?_, ?_, ?_⟩
  · exact (C7_room_errors_surfaced ⟨2, none, 9⟩
      ⟨[], [("r", ⟨"r", 1, .live, [], .undef⟩)], []⟩ "s" "r" "id"
      (.str "x") true ⟨"r", 1, .live⟩).1 (by decide)
  · exact ((C7_room_errors_surfaced ⟨2, none, 9⟩ initState "s" "r" "id"
      (.str "x") true ⟨"r", 1, .live⟩).2.1 (by decide)).1
  · exact ((C7_room_errors_surfaced ⟨2, none, 9⟩ initState "s" "r" "id"
      (.str "x") true ⟨"r", 1, .live⟩).2.1 (by decide)).2.1
  · exact (C7_room_errors_surfaced ⟨2, none, 9⟩
      ⟨[], [("r", ⟨"r", 1, .live, ["s"], .undef⟩)], []⟩ "s" "r" "id"
      (.file [1] "a" "b") true ⟨"r", 1, .live⟩).2.2.1
      ⟨"r", 1, .live, ["s"], .undef⟩ .noUploadDir (by decide) (by decide) rfl
  · exact (C7_room_errors_surfaced ⟨2, none, 9⟩ initState "s" "r" "id"
      (.file [1] "a" "b") true ⟨"r", 1, .live⟩).2.2.2 .noUploadDir rfl

theorem lookupRoom_mem (rs : List (String × RoomData)) (k : String)
    (r : RoomData) (h : lookupRoom rs k = some r) : (k, r) ∈ rs := by
  induction rs with
  | nil => exact nomatch h
  | cons p t ih =>
    obtain ⟨a, b⟩ := p
    by_cases hp : a = k
    · simp only [lookupRoom, hp, if_true] at h
      injection h with h2
      subst hp
      subst h2
      exact List.mem_cons_self _ _
    · simp only [lookupRoom, hp, if_false] at h
      exact List.mem_cons_of_mem _ (ih h)

theorem setAdd_length (s : List String) (x : String) :
    (setAdd s x).length ≤ s.length + 1 := by
  unfold setAdd
  split
  · omega
  · simp

theorem setDel_length_le (s : List String) (x : String) :
    (setDel s x).length ≤ s.length :=
  List.length_filter_le _ _

theorem handlePublicUpload_rooms (cfg : Config) (st : ServerState)
    (f : String) (w : Bool) (d : TransferData) :
    (handlePublicUpload cfg st f w d).state.rooms = st.rooms := by
  unfold handlePublicUpload
  split
  · rfl
  · dsimp only
    split <;> rfl

theorem handlePublicDeleteLast_rooms (st : ServerState) :
    (handlePublicDeleteLast st).1.rooms = st.rooms := by
  unfold handlePublicDeleteLast
  split <;> rfl

theorem cleanupDeletedFiles_rooms (cfg : Config) (st : ServerState)
    (delFn : String → DelResult) :
    (cleanupDeletedFiles cfg st delFn).1.rooms = st.rooms := by
  unfold cleanupDeletedFiles
  split <;> rfl

theorem capOk_step (cfg : Config) (st : ServerState) (op : Op)
    (h : capOk st) : capOk (step cfg st op) := by
  cases op with
  | pubUpload d f w =>
    intro p hp
    rw [step, handlePublicUpload_rooms] at hp
    exact h p hp
  | pubDeleteLast =>
    intro p hp
    rw [step, handlePublicDeleteLast_rooms] at hp
    exact h p hp
  | sweep delFn =>
    intro p hp
    rw [step, cleanupDeletedFiles_rooms] at hp
    exact h p hp
  | rHist s r => exact h
  | rCreate options =>
    rw [step]
    unfold createPrivateRooms
    split
    · exact h
    · intro p hp
      dsimp only at hp
      rcases List.mem_append.mp hp with hin | hnew
      · exact h p hin
      · rcases List.mem_singleton.mp hnew with rfl
        simp only [capOk] at *
        simp [le_max_iff]
  | rJoin s r =>
    rw [step]
    unfold handleRoomJoin
    cases hl : lookupRoom st.rooms r with
    | none => exact h
    | some room =>
      by_cases hfull : (room.clients.length : Int) ≥ room.capacity
      · simp only [hfull, ge_iff_le, if_true]
        simpa using h
      · simp only [hfull, ge_iff_le, if_false]
        intro p hp
        dsimp only at hp
        rcases mem_updateRoom _ _ _ _ hp with rfl | hin
        · have hb := setAdd_length room.clients s
          simp only [le_max_iff]
          left
          have : (room.clients.length : Int) < room.capacity := by omega
          have hcast : ((setAdd room.clients s).length : Int) ≤
              (room.clients.length : Int) + 1 := by exact_mod_cast hb
          omega
        · exact h p hin
  | rUpload s r d f w =>
    rw [step]
    unfold handleRoomUpload
    cases hl : lookupRoom st.rooms r with
    | none => exact h
    | some room =>
      by_cases hm : s ∈ room.clients
      · simp only [hm, not_true, if_false]
        rcases hp : processUpload cfg f w d with ⟨res, wr⟩
        cases res with
        | error e => exact h
        | ok item =>
          have hmem := h _ (lookupRoom_mem _ _ _ hl)
          cases hmo : room.mode with
          | live => exact h
          | singleton =>
            intro p hp2
            dsimp only at hp2
            rcases mem_updateRoom _ _ _ _ hp2 with rfl | hin
            · exact hmem
            · exact h p hin
          | history =>
            intro p hp2
            dsimp only at hp2
            rcases mem_updateRoom _ _ _ _ hp2 with rfl | hin
            · exact hmem
            · exact h p hin
      · simp only [hm, not_false_iff, if_true]
        exact h
  | disc s =>
    intro p hp
    rw [step] at hp
    unfold handleDisconnect at hp
    dsimp only at hp
    rw [List.mem_filterMap] at hp
    obtain ⟨q, hq, hdq⟩ := hp
    unfold discRoom at hdq
    by_cases hm : s ∈ q.2.clients
    · simp only [hm, if_true] at hdq
      by_cases hz : setDel q.2.clients s = []
      · simp [hz] at hdq
      · simp only [hz, if_false] at hdq
        injection hdq with h2
        subst h2
        have hb := h q hq
        have hd : ((setDel q.2.clients s).length : Int) ≤
            (q.2.clients.length : Int) := by
          exact_mod_cast setDel_length_le q.2.clients s
        dsimp only
        omega
    · simp only [hm, if_false] at hdq
      injection hdq with h2
      subst h2
      exact h q hq

theorem capOk_reach (cfg : Config) (st : ServerState) (h : reach cfg st) :
    capOk st := by
  obtain ⟨ops, rfl⟩ := h
  suffices H : ∀ (l : List Op) (st0 : ServerState), capOk st0 →
      capOk (l.foldl (step cfg) st0) by
    refine H ops initState ?_
    intro p hp
    exact absurd hp (by simp [initState])
  intro l
  induction l with
  | nil => intro st0 h0; exact h0
  | cons o rest ih =>
    intro st0 h0
    exact ih _ (capOk_step cfg st0 o h0)

/-- C3 counterexample: creating a room registers it with an empty member
set and the empty room persists after the operation completes, so the
reachable state refutes the no-empty-rooms part of the claim. -/
theorem C3_empty_room_counterexample :
    reach ⟨2, some "u", 9⟩ ((createPrivateRooms initState ⟨"r", 1, .live⟩).1) ∧
    lookupRoom ((createPrivateRooms initState ⟨"r", 1, .live⟩).1).rooms "r" =
      some ⟨"r", 1, .live, [], .undef⟩ :=
  ⟨⟨[.rCreate ⟨"r", 1, .live⟩], rfl⟩, by decide⟩

/-- C3 amended: at every reachable state every registered room has at most
max(capacity, 0) members, and a disconnect destroys every room it empties:
a room whose member set is empty after a disconnect was already registered
unchanged before it.  Rooms are created with empty member sets and persist
until a first member joins, which is the part of the original claim that
fails. -/
theorem C3_capacity_and_teardown (cfg : Config) (st : ServerState)
    (h : reach cfg st) :
    capOk st ∧
    (∀ st2 s p, p ∈ (handleDisconnect st2 s).rooms → p.2.clients = [] →
      p ∈ st2.rooms) := by
  refine ⟨capOk_reach cfg st h, ?_⟩
  intro st2 s p hp hz
  unfold handleDisconnect at hp
  dsimp only at hp
  rw [List.mem_filterMap] at hp
  obtain ⟨q, hq, hdq⟩ := hp
  unfold discRoom at hdq
  by_cases hm : s ∈ q.2.clients
  · simp only [hm, if_true] at hdq
    by_cases hzz : setDel q.2.clients s = []
    · simp [hzz] at hdq
    · simp only [hzz, if_false] at hdq
      injection hdq with h2
      subst h2
      exact absurd hz hzz
  · simp only [hm, if_false] at hdq
    injection hdq with h2
    subst h2
    exact hq

/-- Witness for the amended C3: a concrete reachable state satisfies the
capacity bound, and the room left empty by a concrete disconnect is exactly
the room that was already empty before it. -/
theorem C3_capacity_and_teardown_witness :
    capOk ((handleRoomJoin ((createPrivateRooms initState
      ⟨"r", 2, .live⟩).1) "a" "r").1) ∧
    ("e", (⟨"e", 3, .live, [], .undef⟩ : RoomData)) ∈
      (⟨[], [("e", ⟨"e", 3, .live, [], .undef⟩),
        ("r", ⟨"r", 2, .live, ["a"], .undef⟩)], []⟩ : ServerState).rooms := by
  have h := C3_capacity_and_teardown ⟨2, some "u", 9⟩
    ((handleRoomJoin ((createPrivateRooms initState ⟨"r", 2, .live⟩).1)
      "a" "r").1)
    ⟨[.rCreate ⟨"r", 2, .live⟩, .rJoin "a" "r"], rfl⟩
  refine ⟨h.1, ?_⟩
  exact h.2
    ⟨[], [("e", ⟨"e", 3, .live, [], .undef⟩),
      ("r", ⟨"r", 2, .live, ["a"], .undef⟩)], []⟩ "a"
    ("e", ⟨"e", 3, .live, [], .undef⟩) (by decide) rfl

theorem handlePublicUpload_led_subset (cfg : Config) (st : ServerState)
    (f : String) (w : Bool) (d : TransferData) :
    st.deletedFiles ⊆ (handlePublicUpload cfg st f w d).state.deletedFiles := by
  unfold handlePublicUpload
  split
  · exact fun a ha => ha
  · dsimp only
    split
    · split
      · exact subset_setAdd _ _
      · exact fun a ha => ha
    · exact fun a ha => ha

theorem handlePublicDeleteLast_led_subset (st : ServerState) :
    st.deletedFiles ⊆ (handlePublicDeleteLast st).1.deletedFiles := by
  unfold handlePublicDeleteLast
  split
  · dsimp only
    split
    · exact subset_setAdd _ _
    · exact fun a ha => ha
  · exact fun a ha => ha

theorem createPrivateRooms_led (st : ServerState) (options : RoomOptions) :
    (createPrivateRooms st options).1.deletedFiles = st.deletedFiles := by
  unfold createPrivateRooms
  split <;> rfl

theorem handleRoomJoin_led (st : ServerState) (s r : String) :
    (handleRoomJoin st s r).1.deletedFiles = st.deletedFiles := by
  unfold handleRoomJoin
  split
  · rfl
  · split <;> rfl

theorem handleRoomUpload_led_subset (cfg : Config) (st : ServerState)
    (s r : String) (d : TransferData) (f : String) (w : Bool) :
    st.deletedFiles ⊆ (handleRoomUpload cfg st s r d f w).state.deletedFiles := by
  unfold handleRoomUpload
  split
  · exact fun a ha => ha
  · split
    · exact fun a ha => ha
    · split
      · exact fun a ha => ha
      · split
        · exact fun a ha => ha
        · dsimp only
          split
          · exact subset_setAdd _ _
          · exact fun a ha => ha
        · exact fun a ha => ha

theorem subset_files_foldl (l : List StoredData) (led : List String) :
    led ⊆ l.foldl (fun acc item =>
      match item with
      | .file f => setAdd acc f.fileId
      | _ => acc) led := by
  induction l generalizing led with
  | nil => exact fun a ha => ha
  | cons hd t ih =>
    refine List.Subset.trans ?_ (ih _)
    cases hd with
    | file f2 => exact subset_setAdd _ _
    | str c => exact fun a ha => ha

theorem subset_ledgerRoomFiles (led : List String) (room : RoomData) :
    led ⊆ ledgerRoomFiles led room := by
  unfold ledgerRoomFiles
  split
  · split
    · exact subset_setAdd _ _
    · exact fun a ha => ha
  · split
    · split
      · exact subset_files_foldl _ _
      · exact fun a ha => ha
    · exact fun a ha => ha

theorem foldl_led_subset
    (g : List String → (String × RoomData) → List String)
    (hg : ∀ led p, led ⊆ g led p) :
    ∀ (rs : List (String × RoomData)) (led : List String),
      led ⊆ rs.foldl g led := by
  intro rs
  induction rs with
  | nil => intro led; exact fun a ha => ha
  | cons p t ih =>
    intro led
    exact List.Subset.trans (hg led p) (ih (g led p))

theorem handleDisconnect_led_subset (st : ServerState) (s : String) :
    st.deletedFiles ⊆ (handleDisconnect st s).deletedFiles := by
  unfold handleDisconnect
  dsimp only
  refine foldl_led_subset _ ?_ st.rooms st.deletedFiles
  intro led p
  split
  · exact subset_ledgerRoomFiles led p.2
  · exact fun a ha => ha

theorem led_subset_step (cfg : Config) (st : ServerState) (op : Op)
    (h : op.isSweep = false) :
    st.deletedFiles ⊆ (step cfg st op).deletedFiles := by
  cases op with
  | pubUpload d f w => exact handlePublicUpload_led_subset cfg st f w d
  | pubDeleteLast => exact handlePublicDeleteLast_led_subset st
  | rCreate options =>
    rw [step, createPrivateRooms_led]
    exact fun a ha => ha
  | rJoin s r =>
    rw [step, handleRoomJoin_led]
    exact fun a ha => ha
  | rHist s r => exact fun a ha => ha
  | rUpload s r d f w => exact handleRoomUpload_led_subset cfg st s r d f w
  | disc s => exact handleDisconnect_led_subset st s
  | sweep delFn => exact nomatch h

theorem processUpload_isStr (cfg : Config) (f : String) (w : Bool)
    (d : TransferData) (item : StoredData)
    (hdir : cfg.uploadDir = none)
    (h : (processUpload cfg f w d).1 = .ok item) : item.isStr = true := by
  cases d with
  | str c =>
    have hr : (processUpload cfg f w (.str c)).1 = .ok (.str c) := rfl
    rw [hr] at h
    injection h with h2
    rw [← h2]
    rfl
  | file content fn mt =>
    have hr : (processUpload cfg f w (.file content fn mt)).1 =
        .error .noUploadDir := by
      simp [processUpload, hdir]
    rw [hr] at h
    exact nomatch h

theorem led_match_of_str (led : List String) (o : Option StoredData) :
    (∀ x, o = some x → x.isStr = true) →
    (match o with
      | some (.file f) => setAdd led f.fileId
      | _ => led) = led := by
  cases o with
  | none => intro _; rfl
  | some x =>
    intro h
    cases x with
    | str c => rfl
    | file f2 => exact nomatch (h _ rfl)

theorem led_match_roomdata_of_clean (led : List String) (dv : RoomDataVal) :
    dv.clean = true →
    (match dv with
      | .single (.file f) => setAdd led f.fileId
      | _ => led) = led := by
  cases dv with
  | undef => intro _; rfl
  | arr l => intro _; rfl
  | single d =>
    intro h
    cases d with
    | str c => rfl
    | file f2 => exact nomatch h

theorem arrList_clean (dv : RoomDataVal) (h : dv.clean = true) :
    ∀ x ∈ (match dv with | .arr l => l | _ => ([] : List StoredData)),
      x.isStr = true := by
  cases dv with
  | undef => intro x hx; exact nomatch hx
  | single d => intro x hx; exact nomatch hx
  | arr l =>
    intro x hx
    exact List.all_eq_true.mp h x hx

theorem files_foldl_of_str (l : List StoredData) (led : List String)
    (h : ∀ x ∈ l, x.isStr = true) :
    l.foldl (fun acc item =>
      match item with
      | .file f => setAdd acc f.fileId
      | _ => acc) led = led := by
  induction l generalizing led with
  | nil => rfl
  | cons hd t ih =>
    cases hd with
    | str c =>
      exact ih led (fun x hx => h x (List.mem_cons_of_mem _ hx))
    | file f2 => exact nomatch (h _ (List.mem_cons_self _ _))

theorem ledgerRoomFiles_of_clean (led : List String) (room : RoomData)
    (h : room.data.clean = true) : ledgerRoomFiles led room = led := by
  unfold ledgerRoomFiles
  split
  · exact led_match_roomdata_of_clean led room.data h
  · split
    · cases hd : room.data with
      | undef => rfl
      | single d => rfl
      | arr l =>
        refine files_foldl_of_str l led ?_
        rw [hd] at h
        exact fun x hx => List.all_eq_true.mp h x hx
    · rfl

theorem disc_foldl_of_clean (s : String) (rs : List (String × RoomData))
    (led : List String) (h : ∀ p ∈ rs, p.2.data.clean = true) :
    rs.foldl (fun led p =>
      if s ∈ p.2.clients ∧ setDel p.2.clients s = [] then
        ledgerRoomFiles led p.2
      else led) led = led := by
  induction rs generalizing led with
  | nil => rfl
  | cons p t ih =>
    rw [List.foldl_cons]
    have hstep : (if s ∈ p.2.clients ∧ setDel p.2.clients s = [] then
        ledgerRoomFiles led p.2 else led) = led := by
      split
      · exact ledgerRoomFiles_of_clean led p.2
          (h p (List.mem_cons_self _ _))
      · rfl
    rw [hstep]
    exact ih led (fun q hq => h q (List.mem_cons_of_mem _ hq))

theorem storageFree_step (cfg : Config) (st : ServerState) (op : Op)
    (hdir : cfg.uploadDir = none) (h : storageFree st) :
    storageFree (step cfg st op) := by
  obtain ⟨hled, hpub, hrooms⟩ := h
  cases op with
  | pubUpload d f w =>
    rw [step]
    unfold handlePublicUpload
    rcases hp : processUpload cfg f w d with ⟨res, wr⟩
    cases res with
    | error e => exact ⟨hled, hpub, hrooms⟩
    | ok item =>
      have hstr : item.isStr = true :=
        processUpload_isStr cfg f w d item hdir (by rw [hp])
      have hall : ∀ x ∈ st.publicHistory ++ [item], x.isStr = true := by
        intro x hx
        rcases List.mem_append.mp hx with hx | hx
        · exact hpub x hx
        · rw [List.mem_singleton.mp hx]; exact hstr
      dsimp only
      split
      · refine ⟨?_, ?_, hrooms⟩
        · rw [led_match_of_str st.deletedFiles _
            (fun x hx => hall x (List.mem_of_mem_head? hx))]
          exact hled
        · intro x hx
          exact hall x (List.tail_subset _ hx)
      · exact ⟨hled, hall, hrooms⟩
  | pubDeleteLast =>
    rw [step]
    unfold handlePublicDeleteLast
    dsimp only
    split
    · refine ⟨?_, ?_, hrooms⟩
      · rw [led_match_of_str st.deletedFiles _
          (fun x hx => hpub x (List.mem_of_mem_getLast? hx))]
        exact hled
      · intro x hx
        exact hpub x (List.dropLast_subset _ hx)
    · exact ⟨hled, hpub, hrooms⟩
  | rCreate options =>
    rw [step]
    unfold createPrivateRooms
    split
    · exact ⟨hled, hpub, hrooms⟩
    · refine ⟨hled, hpub, ?_⟩
      intro p hp
      dsimp only at hp
      rcases List.mem_append.mp hp with hin | hnew
      · exact hrooms p hin
      · rcases List.mem_singleton.mp hnew with rfl
        dsimp only
        split <;> rfl
  | rJoin s r =>
    rw [step]
    unfold handleRoomJoin
    cases hl : lookupRoom st.rooms r with
    | none => exact ⟨hled, hpub, hrooms⟩
    | some room =>
      by_cases hfull : (room.clients.length : Int) ≥ room.capacity
      · simp only [hfull, ge_iff_le, if_true]
        exact ⟨hled, hpub, hrooms⟩
      · simp only [hfull, ge_iff_le, if_false]
        refine ⟨hled, hpub, ?_⟩
        intro p hp
        dsimp only at hp
        rcases mem_updateRoom _ _ _ _ hp with rfl | hin
        · exact hrooms (r, room) (lookupRoom_mem st.rooms r room hl)
        · exact hrooms p hin
  | rHist s r => exact ⟨hled, hpub, hrooms⟩
  | rUpload s r d f w =>
    rw [step]
    unfold handleRoomUpload
    cases hl : lookupRoom st.rooms r with
    | none => exact ⟨hled, hpub, hrooms⟩
    | some room =>
      by_cases hm : s ∈ room.clients
      · simp only [hm, not_true, if_false]
        rcases hp : processUpload cfg f w d with ⟨res, wr⟩
        cases res with
        | error e => exact ⟨hled, hpub, hrooms⟩
        | ok item =>
          have hstr : item.isStr = true :=
            processUpload_isStr cfg f w d item hdir (by rw [hp])
          have hcl : room.data.clean = true :=
            hrooms _ (lookupRoom_mem _ _ _ hl)
          cases hmo : room.mode with
          | live => exact ⟨hled, hpub, hrooms⟩
          | singleton =>
            refine ⟨?_, hpub, ?_⟩
            · dsimp only
              rw [led_match_roomdata_of_clean st.deletedFiles room.data hcl]
              exact hled
            · intro p hp2
              dsimp only at hp2
              rcases mem_updateRoom _ _ _ _ hp2 with rfl | hin
              · exact hstr
              · exact hrooms p hin
          | history =>
            refine ⟨hled, hpub, ?_⟩
            intro p hp2
            dsimp only at hp2
            rcases mem_updateRoom _ _ _ _ hp2 with rfl | hin
            · dsimp only [RoomDataVal.clean]
              rw [List.all_append, Bool.and_eq_true]
              refine ⟨?_, ?_⟩
              · exact List.all_eq_true.mpr (arrList_clean room.data hcl)
              · simp only [List.all_cons, List.all_nil, Bool.and_true]
                exact hstr
            · exact hrooms p hin
      · simp only [hm, not_false_iff, if_true]
        exact ⟨hled, hpub, hrooms⟩
  | disc s =>
    rw [step]
    unfold handleDisconnect
    refine ⟨?_, hpub, ?_⟩
    · dsimp only
      rw [disc_foldl_of_clean s st.rooms st.deletedFiles hrooms]
      exact hled
    · intro p hp
      dsimp only at hp
      rw [List.mem_filterMap] at hp
      obtain ⟨q, hq, hdq⟩ := hp
      unfold discRoom at hdq
      by_cases hm : s ∈ q.2.clients
      · simp only [hm, if_true] at hdq
        by_cases hz : setDel q.2.clients s = []
        · simp [hz] at hdq
        · simp only [hz, if_false] at hdq
          injection hdq with h2
          subst h2
          exact hrooms q hq
      · simp only [hm, if_false] at hdq
        injection hdq with h2
        subst h2
        exact hrooms q hq
  | sweep delFn =>
    rw [step]
    unfold cleanupDeletedFiles
    rw [hdir]
    exact ⟨rfl, hpub, hrooms⟩

theorem storageFree_reach (cfg : Config) (st : ServerState)
    (hdir : cfg.uploadDir = none) (h : reach cfg st) : storageFree st := by
  obtain ⟨ops, rfl⟩ := h
  suffices H : ∀ (l : List Op) (st0 : ServerState), storageFree st0 →
      storageFree (l.foldl (step cfg) st0) by
    refine H ops initState ?_
    refine ⟨rfl, ?_, ?_⟩ <;> intro x hx <;> exact absurd hx (by simp [initState])
  intro l
  induction l with
  | nil => intro st0 h0; exact h0
  | cons o rest ih =>
    intro st0 h0
    exact ih _ (storageFree_step cfg st0 o hdir h0)

/-- C4: with a store configured, the sweep attempts deletion for every
ledgered id, counts successful and not-found deletions as deleted and
removes exactly those from the ledger, while any other failure is reported
as failed and keeps the id ledgered; no operation other than a sweep ever
removes an id from the ledger; and in the one configuration whose sweep
clears the ledger wholesale (no upload directory) every reachable ledger
is empty, so across all operations ids leave the ledger only through a
successful or not-found deletion during a sweep. -/
theorem C4_sweep_ledger_contract :
    (∀ (cfg : Config) (st : ServerState) (delFn : String → DelResult)
      (u : String), cfg.uploadDir = some u →
      (cleanupDeletedFiles cfg st delFn).2.1 =
        st.deletedFiles.filter (fun i => delFn i ≠ .err) ∧
      (cleanupDeletedFiles cfg st delFn).2.2 =
        st.deletedFiles.filter (fun i => delFn i = .err) ∧
      (cleanupDeletedFiles cfg st delFn).1.deletedFiles =
        st.deletedFiles.filter (fun i => delFn i = .err) ∧
      (cleanupDeletedFiles cfg st delFn).1.publicHistory = st.publicHistory ∧
      (cleanupDeletedFiles cfg st delFn).1.rooms = st.rooms ∧
      (∀ i ∈ st.deletedFiles,
        (delFn i ≠ .err → i ∈ (cleanupDeletedFiles cfg st delFn).2.1 ∧
          i ∉ (cleanupDeletedFiles cfg st delFn).1.deletedFiles) ∧
        (delFn i = .err → i ∈ (cleanupDeletedFiles cfg st delFn).2.2 ∧
          i ∈ (cleanupDeletedFiles cfg st delFn).1.deletedFiles))) ∧
    (∀ (cfg : Config) (st : ServerState) (op : Op), op.isSweep = false →
      st.deletedFiles ⊆ (step cfg st op).deletedFiles) ∧
    (∀ (cfg : Config) (st : ServerState), cfg.uploadDir = none →
      reach cfg st → st.deletedFiles = []) := by
  refine ⟨?_, led_subset_step, ?_⟩
  · intro cfg st delFn u hdir
    have hred : cleanupDeletedFiles cfg st delFn =
        ({ st with deletedFiles :=
            st.deletedFiles.filter (fun i => delFn i = .err) },
          st.deletedFiles.filter (fun i => delFn i ≠ .err),
          st.deletedFiles.filter (fun i => delFn i = .err)) := by
      unfold cleanupDeletedFiles
      rw [hdir]
      rfl
    rw [hred]
    refine ⟨rfl, rfl, rfl, rfl, rfl, ?_⟩
    intro i hi
    constructor
    · intro hne
      constructor
      · exact List.mem_filter.mpr ⟨hi, by simpa using hne⟩
      · intro hmem
        have := (List.mem_filter.mp hmem).2
        simp at this
        exact hne this
    · intro heq
      constructor
      · exact List.mem_filter.mpr ⟨hi, by simpa using heq⟩
      · exact List.mem_filter.mpr ⟨hi, by simpa using heq⟩
  · intro cfg st hdir h
    exact (storageFree_reach cfg st hdir h).1

/-- Witness for C4: a concrete sweep over a two-id ledger deletes the id
whose unlink succeeds, keeps and reports the failing one, and a non-sweep
operation only extends a concrete ledger. -/
theorem C4_sweep_ledger_contract_witness :
    (cleanupDeletedFiles ⟨2, some "u", 9⟩ ⟨[], [], ["x", "y"]⟩
      (fun i => if i = "x" then .ok else .err)).2.1 = ["x"] ∧
    (cleanupDeletedFiles ⟨2, some "u", 9⟩ ⟨[], [], ["x", "y"]⟩
      (fun i => if i = "x" then .ok else .err)).1.deletedFiles = ["y"] ∧
    ["a"] ⊆ (step ⟨2, some "u", 9⟩ ⟨[], [], ["a"]⟩ .pubDeleteLast).deletedFiles ∧
    (⟨[], [], []⟩ : ServerState).deletedFiles = [] := by
  have h := C4_sweep_ledger_contract
  have h1 := h.1 ⟨2, some "u", 9⟩ ⟨[], [], ["x", "y"]⟩
    (fun i => if i = "x" then .ok else .err) "u" rfl
  refine ⟨?_, ?_, ?_, ?_⟩
  · rw [h1.1]; decide
  · rw [h1.2.2.1]; decide
  · exact h.2.1 ⟨2, some "u", 9⟩ ⟨[], [], ["a"]⟩ .pubDeleteLast rfl
  · exact h.2.2 ⟨2, none, 9⟩ ⟨[], [], []⟩ rfl ⟨[], rfl⟩

/-- C9: the code contradicts the claim.  A singleton room with one member:
the member starts an upload (the checks pass and the room record is
captured), then disconnects while the bytes persist, so the room is
destroyed; when the upload resolves with a successfully stored file, the
resume path runs against the detached record, reports success to the
uploader, and the freshly stored content id ends up neither in any live
structure nor in the deletion ledger: the final state is the empty initial
state even though content id fresh was written to the store. -/
theorem C9_orphaned_fresh_file :
    roomUploadBegin
        (handleRoomJoin ((createPrivateRooms initState
          ⟨"r", 1, .singleton⟩).1) "s" "r").1 "s" "r" =
      some ⟨"r", "s", .singleton, .undef⟩ ∧
    processUpload ⟨2, some "u", 9⟩ "fresh" true (.file [7] "f" "m") =
      (.ok (.file ⟨"fresh", "f", "m", 1⟩), ["fresh"]) ∧
    handleDisconnect
        (handleRoomJoin ((createPrivateRooms initState
          ⟨"r", 1, .singleton⟩).1) "s" "r").1 "s" = initState ∧
    (roomUploadResume
        (handleDisconnect (handleRoomJoin ((createPrivateRooms initState
          ⟨"r", 1, .singleton⟩).1) "s" "r").1 "s")
        ⟨"r", "s", .singleton, .undef⟩
        (.file ⟨"fresh", "f", "m", 1⟩)).1 = initState ∧
    (roomUploadResume
        (handleDisconnect (handleRoomJoin ((createPrivateRooms initState
          ⟨"r", 1, .singleton⟩).1) "s" "r").1 "s")
        ⟨"r", "s", .singleton, .undef⟩
        (.file ⟨"fresh", "f", "m", 1⟩)).2.1 =
      ⟨true, "Data sent successfully."⟩ := by
  exact ⟨rfl, rfl, rfl, rfl, rfl⟩
